import Mathlib

/-!
# Verification of `subspace-core-primitives`

Shallow embedding of the core primitives of the Subspace network
(`crates/subspace-core-primitives/src/lib.rs`): the 256-bit unsigned
integer `U256` with wrapping / checked / saturating arithmetic and
byte-endianness conversions, the bidirectional (cyclic) distance metric,
the legacy sector-id derivations, the `Solution` record and its
reward-address transform, and the archived-block-progress bookkeeping.

Machine integers are modelled as `Nat` values together with explicit
reduction modulo `2 ^ 256` (for `U256`) or bounds `< 2 ^ 64` (for `u64`),
mirroring the two's-complement limb arithmetic of the `uint` crate.
-/

/-- Size of the `U256` value space: the type holds four 64-bit
little-endian limbs, i.e. the values `0 ..= 2 ^ 256 - 1`. -/
def U256.size : Nat := 2 ^ 256

/-- `U256::zero()`: additive identity. -/
def U256.zero : Nat := 0

/-- `U256::one()`: multiplicative identity. -/
def U256.one : Nat := 1

/-- `U256::MAX`: maximum value, all 256 bits set. -/
def U256.MAX : Nat := U256.size - 1

/-- Numeric value of four little-endian 64-bit limbs `[l0, l1, l2, l3]`,
as in `private_u256::U256([l0, l1, l2, l3])`. -/
def U256.ofLimbs (l0 l1 l2 l3 : Nat) : Nat :=
  l0 + 2 ^ 64 * (l1 + 2 ^ 64 * (l2 + 2 ^ 64 * l3))

/-- `U256::MIDDLE`: the hand-written limb constant
`[u64::MAX, u64::MAX, u64::MAX, u64::MAX / 2]` (little-endian limbs). -/
def U256.MIDDLE : Nat :=
  U256.ofLimbs (2 ^ 64 - 1) (2 ^ 64 - 1) (2 ^ 64 - 1) ((2 ^ 64 - 1) / 2)

/-- `<U256 as WrappingAdd>::wrapping_add`, via `overflowing_add`:
addition modulo `2 ^ 256`. -/
def U256.wrapping_add (a b : Nat) : Nat := (a + b) % U256.size

/-- `<U256 as WrappingSub>::wrapping_sub`, via `overflowing_sub`:
two's-complement subtraction modulo `2 ^ 256`. -/
def U256.wrapping_sub (a b : Nat) : Nat :=
  (a + (U256.size - b % U256.size)) % U256.size

/-- `U256::overflowing_add`: wrapped sum together with the carry-out flag. -/
def U256.overflowing_add (a b : Nat) : Nat × Bool :=
  (U256.wrapping_add a b, decide (U256.size ≤ a + b))

/-- `U256::overflowing_sub`: wrapped difference together with the borrow flag. -/
def U256.overflowing_sub (a b : Nat) : Nat × Bool :=
  (U256.wrapping_sub a b, decide (a < b))

/-- `U256::checked_add`: `None` exactly when the addition overflows. -/
def U256.checked_add (a b : Nat) : Option Nat :=
  let r := U256.overflowing_add a b
  if r.2 then none else some r.1

/-- `U256::checked_sub`: `None` exactly when the subtraction underflows. -/
def U256.checked_sub (a b : Nat) : Option Nat :=
  let r := U256.overflowing_sub a b
  if r.2 then none else some r.1

/-- `U256::checked_mul`: `None` exactly when the multiplication overflows. -/
def U256.checked_mul (a b : Nat) : Option Nat :=
  if U256.size ≤ a * b then none else some (a * b)

/-- `U256::checked_div`: `None` exactly on division by zero. -/
def U256.checked_div (a b : Nat) : Option Nat :=
  if b = 0 then none else some (a / b)

/-- `U256::saturating_add`: clamps to `MAX` on overflow. -/
def U256.saturating_add (a b : Nat) : Nat :=
  let r := U256.overflowing_add a b
  if r.2 then U256.MAX else r.1

/-- `U256::saturating_sub`: clamps to zero on underflow. -/
def U256.saturating_sub (a b : Nat) : Nat :=
  let r := U256.overflowing_sub a b
  if r.2 then U256.zero else r.1

/-- Little-endian byte expansion of a natural number into `k` bytes:
byte `i` is `(n >> (8 * i)) & 0xff`, as written by
`uint`'s `to_little_endian`. -/
def U256.toLeBytes : Nat → Nat → List Nat
  | 0, _ => []
  | k + 1, n => n % 256 :: U256.toLeBytes k (n / 256)

/-- Numeric value of a little-endian byte list, as read by
`uint`'s `from_little_endian`. -/
def U256.fromLeBytes : List Nat → Nat
  | [] => 0
  | b :: bs => b + 256 * U256.fromLeBytes bs

/-- `U256::to_le_bytes`: 32 little-endian bytes. -/
def U256.to_le_bytes (x : Nat) : List Nat := U256.toLeBytes 32 x

/-- `U256::from_le_bytes`. -/
def U256.from_le_bytes (bytes : List Nat) : Nat := U256.fromLeBytes bytes

/-- `U256::to_be_bytes`: 32 big-endian bytes (the little-endian
expansion reversed). -/
def U256.to_be_bytes (x : Nat) : List Nat := (U256.toLeBytes 32 x).reverse

/-- `U256::from_be_bytes`. -/
def U256.from_be_bytes (bytes : List Nat) : Nat := U256.fromLeBytes bytes.reverse

/-- `bidirectional_distance`: the smaller of the two wraparound
differences, instantiated at `U256`. -/
def bidirectional_distance (a b : Nat) : Nat :=
  min (U256.wrapping_sub a b) (U256.wrapping_sub b a)

/-- `u64::try_from(U256)` (`uint`'s `TryFrom`): succeeds exactly when the
value fits into 64 bits. -/
def u64.try_from (v : Nat) : Option Nat :=
  if v < 2 ^ 64 then some v else none

/-- `u64::to_le_bytes`: the 8 little-endian bytes of a 64-bit value. -/
def u64.to_le_bytes (n : Nat) : List Nat := U256.toLeBytes 8 n

/-- `u64::from_be_bytes([b0, ..., b7])`: big-endian reconstruction of a
64-bit value from 8 bytes. -/
def u64.from_be_bytes (b0 b1 b2 b3 b4 b5 b6 b7 : Nat) : Nat :=
  b7 + 256 * (b6 + 256 * (b5 + 256 * (b4 + 256 * (b3 + 256 * (b2 + 256 * (b1 + 256 * b0))))))

/-- Keyed 32-byte hash functions `(data, key) ↦ 32 bytes`.
Modelled from the spec: `blake2b_256_hash_with_key` lives in the crate's
`crypto` module, which is not among the given sources; the spec treats it
as an opaque, deterministic keyed hash producing 32 bytes, so the
derivations below abstract over the hash function. -/
abbrev HashFn : Type := List Nat → List Nat → List Nat

/-- A `LegacySectorId` wraps a `Blake2b256Hash`, i.e. 32 bytes. -/
abbrev LegacySectorId : Type := List Nat

/-- `LegacySectorId::new(public_key, sector_index)`: keyed hash of the
little-endian bytes of `sector_index` under key = the public key bytes. -/
def LegacySectorId.new (hash : HashFn) (public_key : List Nat)
    (sector_index : Nat) : LegacySectorId :=
  hash (u64.to_le_bytes sector_index) public_key

/-- Modelled from the spec: `PieceIndex::to_bytes` is defined in the
crate's absent `pieces` module; a `PieceIndex` is a `u64` index and its
byte form is its little-endian encoding. -/
def PieceIndex.to_bytes (n : Nat) : List Nat := u64.to_le_bytes n

/-- `LegacySectorId::derive_piece_index(piece_offset, total_pieces)`:
keyed-hash the piece offset bytes under the sector id, read the digest as
a little-endian `U256`, reduce modulo `total_pieces`, and narrow to
`u64`/`PieceIndex` (the narrowing is the `expect`ed conversion; `none`
models the panic branch). -/
def LegacySectorId.derive_piece_index (hash : HashFn) (sector_id : LegacySectorId)
    (piece_offset : Nat) (total_pieces : Nat) : Option Nat :=
  let piece_index :=
    U256.from_le_bytes (hash (PieceIndex.to_bytes piece_offset) sector_id) % total_pieces
  u64.try_from piece_index

/-- `LegacySectorId::derive_local_challenge(global_challenge)`: keyed-hash
the global challenge under the sector id and read the first 8 digest
bytes as a big-endian `u64` (`SolutionRange`). -/
def LegacySectorId.derive_local_challenge (hash : HashFn)
    (sector_id : LegacySectorId) (global_challenge : List Nat) : Nat :=
  let h := hash global_challenge sector_id
  u64.from_be_bytes (h.getD 0 0) (h.getD 1 0) (h.getD 2 0) (h.getD 3 0)
    (h.getD 4 0) (h.getD 5 0) (h.getD 6 0) (h.getD 7 0)

/-- `NonZeroU64`: a 64-bit value known to be positive. -/
def NonZeroU64 : Type := {n : Nat // 0 < n}

/-- `Scalar`: opaque commitment-scheme field element (its internals live
in the absent `crypto` module); carried through `Solution` untouched. -/
structure Scalar where
  bytes : List Nat
deriving Repr, DecidableEq

/-- `Witness`: opaque KZG witness, carried through `Solution` untouched. -/
structure Witness where
  bytes : List Nat
deriving Repr, DecidableEq

/-- `ScalarLegacy`: opaque legacy field element, carried through
`Solution` untouched. -/
structure ScalarLegacy where
  bytes : List Nat
deriving Repr, DecidableEq

/-- `ChunkSignature`: VRF output and proof bytes. -/
structure ChunkSignature where
  output : List Nat
  proof : List Nat
deriving Repr, DecidableEq

/-- `Solution<PublicKey, RewardAddress>`: farmer solution for a slot
challenge. -/
structure Solution (PublicKey RewardAddress : Type) where
  public_key : PublicKey
  reward_address : RewardAddress
  sector_index : Nat
  total_pieces : NonZeroU64
  piece_offset : Nat
  record_commitment_hash : Scalar
  piece_witness : Witness
  chunk_offset : Nat
  chunk : ScalarLegacy
  chunk_signature : ChunkSignature

/-- `Solution::into_reward_address_format::<T, RewardAddressB>`: the Rust
conversion chain `RewardAddressA → T → RewardAddressB` is passed as the
two functions `f` and `g`; every other field is moved across unchanged. -/
def Solution.into_reward_address_format {PK A T B : Type} (f : A → T) (g : T → B)
    (s : Solution PK A) : Solution PK B :=
  match s with
  | { public_key, reward_address, sector_index, total_pieces, piece_offset,
      record_commitment_hash, piece_witness, chunk_offset, chunk, chunk_signature } =>
    { public_key, reward_address := g (f reward_address), sector_index, total_pieces,
      piece_offset, record_commitment_hash, piece_witness, chunk_offset, chunk,
      chunk_signature }

/-- `ArchivedBlockProgress`: progress of an archived block. -/
inductive ArchivedBlockProgress where
  | Complete
  | Partial (bytes_archived : Nat)
deriving Repr, DecidableEq

/-- `Default for ArchivedBlockProgress`: a block is assumed fully
archivable until overflow accounting proves otherwise. -/
def ArchivedBlockProgress.default : ArchivedBlockProgress := .Complete

/-- `ArchivedBlockProgress::partial` (named `partialValue` here because
`partial` is reserved in Lean): the partially archived byte count, when
not complete. -/
def ArchivedBlockProgress.partialValue : ArchivedBlockProgress → Option Nat
  | .Complete => none
  | .Partial number => some number

/-- `ArchivedBlockProgress::set_partial`: state-passing form of
`*self = Self::Partial(new_bytes)`. -/
def ArchivedBlockProgress.set_partial (_self : ArchivedBlockProgress)
    (new_bytes : Nat) : ArchivedBlockProgress :=
  .Partial new_bytes

/-- `LastArchivedBlock`: block number plus archival progress. -/
structure LastArchivedBlock where
  number : Nat
  archived_progress : ArchivedBlockProgress
deriving Repr, DecidableEq

/-- `LastArchivedBlock::partial_archived`. -/
def LastArchivedBlock.partial_archived (b : LastArchivedBlock) : Option Nat :=
  b.archived_progress.partialValue

/-- `LastArchivedBlock::set_partial_archived`, state-passing form. -/
def LastArchivedBlock.set_partial_archived (b : LastArchivedBlock)
    (new_bytes : Nat) : LastArchivedBlock :=
  { b with archived_progress := b.archived_progress.set_partial new_bytes }

/-- `LastArchivedBlock::set_complete`, state-passing form. -/
def LastArchivedBlock.set_complete (b : LastArchivedBlock) : LastArchivedBlock :=
  { b with archived_progress := ArchivedBlockProgress.Complete }

/-- Written from the spec's words (§4.3), for comparison with
`LegacySectorId.new`: the sector id is the keyed hash of the sector
index's little-endian bytes under key = the public key bytes. -/
def specSectorId (hash : HashFn) (public_key : List Nat) (sector_index : Nat) : List Nat :=
  hash (U256.toLeBytes 8 sector_index) public_key

/-- Written from the spec's words (§4.3), for comparison with
`LegacySectorId.derive_local_challenge`: keyed-hash the global slot
challenge under the sector ID as key and take the first 8 bytes
big-endian as a `u64`. -/
def specLocalChallenge (hash : HashFn) (sector_id global_challenge : List Nat) : Nat :=
  U256.fromLeBytes ((hash global_challenge sector_id).take 8).reverse

lemma U256.size_pos : 0 < U256.size := by decide

/-- Peeling one byte off a modulus that is a multiple of 256. -/
lemma mod_mul_256_decomp (n m : Nat) :
    n % (256 * m) = n % 256 + 256 * (n / 256 % m) := by
  conv_lhs => rw [← Nat.div_add_mod (n % (256 * m)) 256]
  rw [Nat.mod_mul_right_div_self, Nat.mod_mod_of_dvd _ ⟨m, rfl⟩]
  ring

/-- Reading back a `k`-byte little-endian expansion recovers the value
modulo `256 ^ k`. -/
lemma fromLeBytes_toLeBytes (k : Nat) :
    ∀ n, U256.fromLeBytes (U256.toLeBytes k n) = n % 256 ^ k := by
  induction k with
  | zero => intro n; simp [U256.toLeBytes, U256.fromLeBytes, Nat.mod_one]
  | succ k ih =>
    intro n
    simp only [U256.toLeBytes, U256.fromLeBytes, ih]
    rw [pow_succ', mod_mul_256_decomp]

/-- Closed form of `wrapping_sub` on in-range values: the usual
difference in one direction, the wrapped-around difference in the other. -/
lemma wrapping_sub_eq_of_lt {a b : Nat} (ha : a < U256.size) (hb : b < U256.size) :
    U256.wrapping_sub a b = if b ≤ a then a - b else a + U256.size - b := by
  unfold U256.wrapping_sub
  rw [Nat.mod_eq_of_lt hb]
  by_cases h : b ≤ a
  · rw [if_pos h]
    have he : a + (U256.size - b) = a - b + U256.size := by omega
    rw [he, Nat.add_mod_right]
    exact Nat.mod_eq_of_lt (by omega)
  · rw [if_neg h, Nat.mod_eq_of_lt (by omega)]
    omega

/-- C2: `U256::MIDDLE`, the hand-written four-limb little-endian
constant `[u64::MAX, u64::MAX, u64::MAX, u64::MAX / 2]`, equals
`U256::MAX / 2` and has numeric value `2 ^ 255 - 1`. -/
theorem MIDDLE_eq_MAX_div_two :
    U256.MIDDLE = U256.MAX / 2 ∧ U256.MIDDLE = 2 ^ 255 - 1 := by
  constructor <;> decide

/-- C8: `bidirectional_distance` is symmetric in its two arguments, and
the distance from any value to itself is zero. -/
theorem bidirectional_distance_symm_self (a b : Nat) :
    bidirectional_distance a b = bidirectional_distance b a ∧
    bidirectional_distance a a = 0 := by
  refine ⟨Nat.min_comm _ _, ?_⟩
  have hr : a % U256.size < U256.size := Nat.mod_lt _ U256.size_pos
  have hd := Nat.div_add_mod a U256.size
  have he : a + (U256.size - a % U256.size) = U256.size * (a / U256.size + 1) := by
    rw [Nat.mul_succ]; omega
  unfold bidirectional_distance U256.wrapping_sub
  rw [he, Nat.mul_mod_right]
  simp

/-- C9: a default `ArchivedBlockProgress` is `Complete`; after
`set_partial_archived 100` the block reports `partial_archived = some
100`; after a subsequent `set_complete` it reports `none` again. -/
theorem archived_progress_lifecycle :
    ArchivedBlockProgress.default = ArchivedBlockProgress.Complete ∧
    ∀ b : LastArchivedBlock,
      (b.set_partial_archived 100).partial_archived = some 100 ∧
      ((b.set_partial_archived 100).set_complete).partial_archived = none :=
  ⟨rfl, fun _ => ⟨rfl, rfl⟩⟩

/-- C5: `into_reward_address_format` returns a solution whose fields are
exactly those of the input, except that `reward_address` is replaced by
the two-step converted value. -/
theorem into_reward_address_format_frame {PK A T B : Type} (f : A → T) (g : T → B)
    (s : Solution PK A) :
    (s.into_reward_address_format f g).public_key = s.public_key ∧
    (s.into_reward_address_format f g).reward_address = g (f s.reward_address) ∧
    (s.into_reward_address_format f g).sector_index = s.sector_index ∧
    (s.into_reward_address_format f g).total_pieces = s.total_pieces ∧
    (s.into_reward_address_format f g).piece_offset = s.piece_offset ∧
    (s.into_reward_address_format f g).record_commitment_hash = s.record_commitment_hash ∧
    (s.into_reward_address_format f g).piece_witness = s.piece_witness ∧
    (s.into_reward_address_format f g).chunk_offset = s.chunk_offset ∧
    (s.into_reward_address_format f g).chunk = s.chunk ∧
    (s.into_reward_address_format f g).chunk_signature = s.chunk_signature := by
  cases s
  simp [Solution.into_reward_address_format]

/-- C6: for every `U256` value `x`, `from_be_bytes (to_be_bytes x) = x`
and `from_le_bytes (to_le_bytes x) = x`. -/
theorem bytes_round_trip (x : Nat) (hx : x < U256.size) :
    U256.from_be_bytes (U256.to_be_bytes x) = x ∧
    U256.from_le_bytes (U256.to_le_bytes x) = x := by
  have hpow : (256 : Nat) ^ 32 = 2 ^ 256 := by norm_num
  have h : U256.fromLeBytes (U256.toLeBytes 32 x) = x := by
    rw [fromLeBytes_toLeBytes]
    exact Nat.mod_eq_of_lt (by rw [hpow]; exact hx)
  refine ⟨?_, h⟩
  unfold U256.from_be_bytes U256.to_be_bytes
  rw [List.reverse_reverse]
  exact h

/-- Witness for `bytes_round_trip` at the concrete value `123456789`. -/
theorem bytes_round_trip_witness :
    U256.from_be_bytes (U256.to_be_bytes 123456789) = 123456789 ∧
    U256.from_le_bytes (U256.to_le_bytes 123456789) = 123456789 :=
  bytes_round_trip 123456789 (by decide)

/-- C1 fails as stated: at the antipodal pair `a = 2 ^ 255`, `b = 0`
both wraparound differences equal `2 ^ 255`, so the bidirectional
distance is `U256::MIDDLE + 1`, strictly above `U256::MIDDLE`. -/
theorem bidirectional_distance_gt_MIDDLE_at_antipode :
    ¬ bidirectional_distance (2 ^ 255) 0 ≤ U256.MIDDLE := by decide

/-- C1 (amended): for in-range `U256` values the bidirectional distance
is at most `U256::MIDDLE + 1` (that is, `2 ^ 255`); the bound
`U256::MIDDLE` itself is exceeded exactly at antipodal pairs. -/
theorem bidirectional_distance_le_MIDDLE_succ (a b : Nat)
    (ha : a < U256.size) (hb : b < U256.size) :
    bidirectional_distance a b ≤ U256.MIDDLE + 1 := by
  have key : U256.MIDDLE + 1 + (U256.MIDDLE + 1) = U256.size := by decide
  unfold bidirectional_distance
  rw [wrapping_sub_eq_of_lt ha hb, wrapping_sub_eq_of_lt hb ha, Nat.min_def]
  split_ifs <;> omega

/-- Witness for `bidirectional_distance_le_MIDDLE_succ` at `a = 3`,
`b = 7`. -/
theorem bidirectional_distance_le_MIDDLE_succ_witness :
    bidirectional_distance 3 7 ≤ U256.MIDDLE + 1 :=
  bidirectional_distance_le_MIDDLE_succ 3 7 (by decide) (by decide)

/-- C10: on in-range `U256` values, wrapping addition and wrapping
subtraction are mutually inverse modulo `2 ^ 256`. -/
theorem wrapping_add_sub_inverse (a b : Nat)
    (ha : a < U256.size) (hb : b < U256.size) :
    U256.wrapping_sub (U256.wrapping_add a b) b = a ∧
    U256.wrapping_add (U256.wrapping_sub a b) b = a := by
  constructor
  · by_cases h : a + b < U256.size
    · have h1 : U256.wrapping_add a b = a + b := Nat.mod_eq_of_lt h
      rw [h1, wrapping_sub_eq_of_lt h hb, if_pos (by omega)]
      omega
    · have h1 : U256.wrapping_add a b = a + b - U256.size := by
        unfold U256.wrapping_add
        rw [Nat.mod_eq_sub_mod (by omega)]
        exact Nat.mod_eq_of_lt (by omega)
      rw [h1, wrapping_sub_eq_of_lt (by omega) hb, if_neg (by omega)]
      omega
  · rw [wrapping_sub_eq_of_lt ha hb]
    by_cases h : b ≤ a
    · rw [if_pos h]
      unfold U256.wrapping_add
      have he : a - b + b = a := by omega
      rw [he]
      exact Nat.mod_eq_of_lt ha
    · rw [if_neg h]
      unfold U256.wrapping_add
      have he : a + U256.size - b + b = a + U256.size := by omega
      rw [he, Nat.add_mod_right]
      exact Nat.mod_eq_of_lt ha

/-- Witness for `wrapping_add_sub_inverse` at `a = 5`, `b = 3`. -/
theorem wrapping_add_sub_inverse_witness :
    U256.wrapping_sub (U256.wrapping_add 5 3) 3 = 5 ∧
    U256.wrapping_add (U256.wrapping_sub 5 3) 3 = 5 :=
  wrapping_add_sub_inverse 5 3 (by decide) (by decide)

/-- C7: the checked operations return `none` exactly on
overflow/underflow/division-by-zero, `saturating_add` clamps to `MAX`,
and the three concrete boundary facts of the spec hold. -/
theorem checked_and_saturating_ops :
    (∀ a b : Nat, a < U256.size → b < U256.size →
      (U256.checked_add a b = none ↔ U256.size ≤ a + b) ∧
      (U256.checked_sub a b = none ↔ a < b) ∧
      (U256.checked_div a b = none ↔ b = 0) ∧
      U256.saturating_add a b = min (a + b) U256.MAX) ∧
    U256.checked_add U256.MAX U256.one = none ∧
    U256.checked_sub U256.zero U256.one = none ∧
    U256.saturating_add U256.MAX U256.one = U256.MAX := by
  refine ⟨?_, by decide, by decide, by decide⟩
  intro a b ha hb
  have hM : U256.MAX = U256.size - 1 := rfl
  refine ⟨?_, ?_, ?_, ?_⟩
  · by_cases h : U256.size ≤ a + b <;>
      simp [U256.checked_add, U256.overflowing_add, h]
  · by_cases h : a < b <;>
      simp [U256.checked_sub, U256.overflowing_sub, h]
  · by_cases h : b = 0 <;> simp [U256.checked_div, h]
  · have hmin : min (a + b) U256.MAX
        = if a + b ≤ U256.MAX then a + b else U256.MAX := Nat.min_def
    by_cases h : U256.size ≤ a + b
    · have hd : U256.saturating_add a b = U256.MAX := by
        simp [U256.saturating_add, U256.overflowing_add, h]
      rw [hd, hmin, if_neg (by omega)]
    · have hd : U256.saturating_add a b = a + b := by
        simp [U256.saturating_add, U256.overflowing_add, h, U256.wrapping_add]
        exact Nat.mod_eq_of_lt (by omega)
      rw [hd, hmin, if_pos (by omega)]

/-- Witness for `checked_and_saturating_ops`: the quantified part at
`a = 3`, `b = 5` shows `checked_sub 3 5 = none`. -/
theorem checked_and_saturating_ops_witness :
    U256.checked_sub 3 5 = none :=
  ((checked_and_saturating_ops.1 3 5 (by decide) (by decide)).2.1).mpr (by decide)

/-- C3: for every keyed-hash outcome, every piece offset and every
nonzero 64-bit `total_pieces`, `derive_piece_index` succeeds (the
narrowing `expect` branch is unreachable) and returns a value strictly
below `total_pieces`. -/
theorem derive_piece_index_in_range (hash : HashFn) (sector_id : LegacySectorId)
    (piece_offset : Nat) (total_pieces : Nat)
    (hpos : 0 < total_pieces) (hlt : total_pieces < 2 ^ 64) :
    ∃ k, LegacySectorId.derive_piece_index hash sector_id piece_offset total_pieces
        = some k ∧ k < total_pieces := by
  have hmod :
      U256.from_le_bytes (hash (PieceIndex.to_bytes piece_offset) sector_id) % total_pieces
        < total_pieces :=
    Nat.mod_lt _ hpos
  refine ⟨_, ?_, hmod⟩
  simp only [LegacySectorId.derive_piece_index, u64.try_from]
  rw [if_pos (lt_trans hmod hlt)]

/-- Witness for `derive_piece_index_in_range`: a constant all-zero hash,
`piece_offset = 0`, `total_pieces = 7`. -/
theorem derive_piece_index_in_range_witness :
    ∃ k, LegacySectorId.derive_piece_index (fun _ _ => List.replicate 32 0) [] 0 7
        = some k ∧ k < 7 :=
  derive_piece_index_in_range (fun _ _ => List.replicate 32 0) [] 0 7
    (by decide) (by decide)

/-- Reading the first eight bytes of a 32-byte digest big-endian agrees
with `u64::from_be_bytes` applied to those bytes. -/
lemma fromLeBytes_reverse_take8 (l : List Nat) (h : l.length = 32) :
    U256.fromLeBytes ((l.take 8).reverse) =
      u64.from_be_bytes (l.getD 0 0) (l.getD 1 0) (l.getD 2 0) (l.getD 3 0)
        (l.getD 4 0) (l.getD 5 0) (l.getD 6 0) (l.getD 7 0) := by
  rcases l with _ | ⟨b0, l⟩; · simp at h
  rcases l with _ | ⟨b1, l⟩; · simp at h
  rcases l with _ | ⟨b2, l⟩; · simp at h
  rcases l with _ | ⟨b3, l⟩; · simp at h
  rcases l with _ | ⟨b4, l⟩; · simp at h
  rcases l with _ | ⟨b5, l⟩; · simp at h
  rcases l with _ | ⟨b6, l⟩; · simp at h
  rcases l with _ | ⟨b7, l⟩; · simp at h
  have htake : (b0 :: b1 :: b2 :: b3 :: b4 :: b5 :: b6 :: b7 :: l).take 8
      = [b0, b1, b2, b3, b4, b5, b6, b7] := rfl
  rw [htake]
  simp [U256.fromLeBytes, u64.from_be_bytes, List.getD]

/-- C4: `LegacySectorId::new` and `derive_local_challenge` compute
exactly what the spec's words describe (`specSectorId` and
`specLocalChallenge`), for every keyed hash producing 32-byte digests. -/
theorem sector_id_and_local_challenge_match_spec (hash : HashFn)
    (public_key : List Nat) (sector_index : Nat)
    (sector_id global_challenge : List Nat)
    (hlen : (hash global_challenge sector_id).length = 32) :
    LegacySectorId.new hash public_key sector_index
        = specSectorId hash public_key sector_index ∧
    LegacySectorId.derive_local_challenge hash sector_id global_challenge
        = specLocalChallenge hash sector_id global_challenge := by
  refine ⟨rfl, ?_⟩
  simp only [LegacySectorId.derive_local_challenge, specLocalChallenge]
  exact (fromLeBytes_reverse_take8 _ hlen).symm

/-- Witness for `sector_id_and_local_challenge_match_spec`: a constant
all-ones hash with concrete key, index and challenge bytes. -/
theorem sector_id_and_local_challenge_match_spec_witness :
    LegacySectorId.new (fun _ _ => List.replicate 32 1) [2] 3
        = specSectorId (fun _ _ => List.replicate 32 1) [2] 3 ∧
    LegacySectorId.derive_local_challenge (fun _ _ => List.replicate 32 1) [4] [5]
        = specLocalChallenge (fun _ _ => List.replicate 32 1) [4] [5] :=
  sector_id_and_local_challenge_match_spec (fun _ _ => List.replicate 32 1)
    [2] 3 [4] [5] (by rfl)
